import Mathlib

/-!
# Verification of the TMDB movie ETL pipeline (`tmdb_etl_lambda.py`)

A shallow embedding of the enrichment-and-cleaning pipeline:

* Python dict values in this pipeline are numbers, strings, `None`, or
  `float('inf')` (the `roi` fallback).  They are modelled by `Val`, with
  numbers as exact rationals (`ℚ`).
* A Python dict is modelled as an association list with insertion-order
  semantics: assignment to an existing key updates the value in place
  (keeping the key's position), assignment to a fresh key appends.
  Lookup returns the first matching entry.
* The HTTP layer is modelled as oracles: a list of page results for the
  listing endpoint, and a function from identifier to an optional decoded
  detail response (`none` = the request raised).

Places where Python would raise `KeyError`/`TypeError` on data the pipeline
never produces (e.g. a record without `movie_id`, or a string where a number
is expected) are totalised with an inert default and noted next to the
definition; theorems about numeric behaviour carry the corresponding
well-typedness hypotheses.
-/

/-- A Python value as used by this pipeline: a number (int/float, modelled
exactly as a rational), a string, `float('inf')` (the `roi` fallback), or
`None`. -/
inductive Val where
  | num (q : ℚ)
  | str (s : String)
  | inf
  | null
deriving DecidableEq, Repr

section AssocOps

variable {κ : Type} {ν : Type} [DecidableEq κ]

/-- Dict lookup `d[k]` / `d.get(k)`: value of the first entry with key `k`. -/
def aget : List (κ × ν) → κ → Option ν
  | [], _ => none
  | p :: rest, k => if p.1 = k then some p.2 else aget rest k

/-- Python `k in d`. -/
def hasKey (d : List (κ × ν)) (k : κ) : Bool :=
  (aget d k).isSome

/-- Dict assignment `d[k] = v`: updates the value in place when the key is
present (keeping its position, as Python dicts do), otherwise appends the
new entry at the end. -/
def aset (d : List (κ × ν)) (k : κ) (v : ν) : List (κ × ν) :=
  if hasKey d k then d.map (fun p => if p.1 = k then (k, v) else p)
  else d ++ [(k, v)]

/-- Python `d.pop(k, None)`: removes the entry with key `k`. -/
def apop (d : List (κ × ν)) (k : κ) : List (κ × ν) :=
  d.filter (fun p => decide (p.1 ≠ k))

/-- Python `d.setdefault(k, v)`: appends `(k, v)` only when `k` is absent
(a present `None` value is kept). -/
def asetdefault (d : List (κ × ν)) (k : κ) (v : ν) : List (κ × ν) :=
  if hasKey d k then d else d ++ [(k, v)]

/-- Python `{**a, **b}`: a copy of `a` updated with `b`'s entries in order. -/
def amerge (a b : List (κ × ν)) : List (κ × ν) :=
  b.foldl (fun acc p => aset acc p.1 p.2) a

@[simp]
theorem aget_nil (k : κ) : aget ([] : List (κ × ν)) k = none := rfl

@[simp]
theorem aget_cons (p : κ × ν) (rest : List (κ × ν)) (k : κ) :
    aget (p :: rest) k = if p.1 = k then some p.2 else aget rest k := rfl

@[simp]
theorem aget_append (d₁ d₂ : List (κ × ν)) (k : κ) :
    aget (d₁ ++ d₂) k = (aget d₁ k).orElse fun _ => aget d₂ k := by
  induction d₁ with
  | nil => simp [aget, Option.orElse]
  | cons p rest ih =>
    by_cases h : p.1 = k <;> simp [aget, h, ih, Option.orElse]

theorem aget_eq_none_of_not_mem (d : List (κ × ν)) (k : κ)
    (h : k ∉ d.map Prod.fst) : aget d k = none := by
  induction d with
  | nil => rfl
  | cons p rest ih =>
    simp only [List.map_cons, List.mem_cons] at h
    push_neg at h
    simp [aget, Ne.symm h.1, ih h.2]

theorem mem_keys_of_hasKey {d : List (κ × ν)} {k : κ} (h : hasKey d k = true) :
    k ∈ d.map Prod.fst := by
  by_contra hmem
  rw [hasKey, aget_eq_none_of_not_mem d k hmem] at h
  simp at h

theorem hasKey_of_mem_keys {d : List (κ × ν)} {k : κ} (h : k ∈ d.map Prod.fst) :
    hasKey d k = true := by
  induction d with
  | nil => simp at h
  | cons p rest ih =>
    rw [List.map_cons] at h
    rcases List.mem_cons.1 h with h1 | h1
    · simp [hasKey, aget, h1.symm]
    · by_cases hp : p.1 = k
      · simp [hasKey, aget, hp]
      · simpa [hasKey, aget, hp] using ih h1

theorem aget_of_hasKey_false {d : List (κ × ν)} {k : κ}
    (hk : ¬ hasKey d k = true) : aget d k = none := by
  rw [hasKey] at hk
  exact Option.not_isSome_iff_eq_none.1 (by simpa using hk)

theorem aget_map_update_self (d : List (κ × ν)) (k : κ) (v : ν)
    (h : k ∈ d.map Prod.fst) :
    aget (d.map (fun p => if p.1 = k then (k, v) else p)) k = some v := by
  induction d with
  | nil => simp at h
  | cons p rest ih =>
    by_cases hp : p.1 = k
    · simp [aget, hp]
    · have h' : k ∈ rest.map Prod.fst := by
        rw [List.map_cons] at h
        rcases List.mem_cons.1 h with h1 | h1
        · exact absurd h1.symm hp
        · exact h1
      simp [aget, hp, ih h']

theorem aget_map_update_ne (d : List (κ × ν)) (k k' : κ) (v : ν) (h : k' ≠ k) :
    aget (d.map (fun p => if p.1 = k then (k, v) else p)) k' = aget d k' := by
  induction d with
  | nil => rfl
  | cons p rest ih =>
    rw [List.map_cons]
    by_cases hp : p.1 = k
    · have h2 : p.1 ≠ k' := fun hh => h (hh.symm.trans hp)
      rw [if_pos hp, aget_cons, aget_cons, if_neg h2,
        if_neg (show ¬ ((k, v) : κ × ν).1 = k' from Ne.symm h)]
      exact ih
    · rw [if_neg hp, aget_cons, aget_cons]
      by_cases hp' : p.1 = k'
      · rw [if_pos hp', if_pos hp']
      · rw [if_neg hp', if_neg hp']
        exact ih

@[simp]
theorem aget_aset_self (d : List (κ × ν)) (k : κ) (v : ν) :
    aget (aset d k v) k = some v := by
  rw [aset]
  by_cases hk : hasKey d k
  · rw [if_pos hk]
    exact aget_map_update_self d k v (mem_keys_of_hasKey hk)
  · rw [if_neg hk, aget_append, aget_of_hasKey_false hk]
    simp [aget, Option.orElse]

@[simp]
theorem aget_aset_ne (d : List (κ × ν)) (k k' : κ) (v : ν) (h : k' ≠ k) :
    aget (aset d k v) k' = aget d k' := by
  rw [aset]
  by_cases hk : hasKey d k
  · rw [if_pos hk]
    exact aget_map_update_ne d k k' v h
  · rw [if_neg hk, aget_append]
    cases hd : aget d k' <;> simp [hd, aget, Ne.symm h, Option.orElse]

theorem aset_aset_same (d : List (κ × ν)) (k : κ) (v w : ν) :
    aset (aset d k v) k w = aset d k w := by
  have h1 : hasKey (aset d k v) k = true := by
    simp [hasKey, aget_aset_self]
  rw [show aset (aset d k v) k w
        = (aset d k v).map (fun p => if p.1 = k then (k, w) else p) from by
      rw [aset, if_pos h1]]
  by_cases hk : hasKey d k
  · rw [show aset d k v = d.map (fun p => if p.1 = k then (k, v) else p) from by
        rw [aset, if_pos hk],
      show aset d k w = d.map (fun p => if p.1 = k then (k, w) else p) from by
        rw [aset, if_pos hk],
      List.map_map]
    apply List.map_congr_left
    intro p _
    by_cases hp : p.1 = k <;> simp [hp]
  · have hnomem : k ∉ d.map Prod.fst := fun hmem => hk (hasKey_of_mem_keys hmem)
    rw [show aset d k v = d ++ [(k, v)] from by rw [aset, if_neg hk],
      show aset d k w = d ++ [(k, w)] from by rw [aset, if_neg hk],
      List.map_append]
    have hmap : d.map (fun p => if p.1 = k then (k, w) else p) = d := by
      rw [List.map_congr_left, List.map_id']
      intro p hp
      have hne : p.1 ≠ k := fun hcontra =>
        hnomem (hcontra ▸ List.mem_map_of_mem Prod.fst hp)
      simp [hne]
    rw [hmap]
    simp

@[simp]
theorem aget_asetdefault_self (d : List (κ × ν)) (k : κ) (v : ν) :
    aget (asetdefault d k v) k = some ((aget d k).getD v) := by
  rw [asetdefault]
  by_cases hk : hasKey d k
  · rw [if_pos hk]
    rw [hasKey] at hk
    obtain ⟨w, hw⟩ := Option.isSome_iff_exists.1 (by simpa using hk)
    simp [hw]
  · rw [if_neg hk, aget_append, aget_of_hasKey_false hk]
    simp [aget, Option.orElse]

@[simp]
theorem aget_asetdefault_ne (d : List (κ × ν)) (k k' : κ) (v : ν) (h : k' ≠ k) :
    aget (asetdefault d k v) k' = aget d k' := by
  rw [asetdefault]
  by_cases hk : hasKey d k
  · rw [if_pos hk]
  · rw [if_neg hk, aget_append]
    cases hd : aget d k' <;> simp [hd, aget, Ne.symm h, Option.orElse]

theorem asetdefault_of_isSome {d : List (κ × ν)} {k : κ} (v : ν)
    (h : (aget d k).isSome) : asetdefault d k v = d := by
  rw [asetdefault, if_pos (by simpa [hasKey] using h)]

theorem mem_apop_key_ne {d : List (κ × ν)} {k : κ} {p : κ × ν}
    (h : p ∈ apop d k) : p.1 ≠ k := by
  have := (List.mem_filter.1 h).2
  simpa using this

@[simp]
theorem aget_apop_self (d : List (κ × ν)) (k : κ) : aget (apop d k) k = none := by
  apply aget_eq_none_of_not_mem
  intro hmem
  obtain ⟨p, hp, hpk⟩ := List.mem_map.1 hmem
  exact mem_apop_key_ne hp hpk

@[simp]
theorem aget_apop_ne (d : List (κ × ν)) (k k' : κ) (h : k' ≠ k) :
    aget (apop d k) k' = aget d k' := by
  induction d with
  | nil => rfl
  | cons p rest ih =>
    simp only [apop] at ih ⊢
    rw [List.filter_cons]
    by_cases hp : p.1 = k
    · have h2 : p.1 ≠ k' := fun hh => h (hh.symm.trans hp)
      rw [if_neg (by simp [hp]), aget_cons, if_neg h2]
      exact ih
    · rw [if_pos (by simp [hp]), aget_cons, aget_cons]
      by_cases hp' : p.1 = k'
      · rw [if_pos hp', if_pos hp']
      · rw [if_neg hp', if_neg hp']
        exact ih

@[simp]
theorem amerge_nil (a : List (κ × ν)) : amerge a [] = a := rfl

theorem amerge_cons (a : List (κ × ν)) (p : κ × ν) (b : List (κ × ν)) :
    amerge a (p :: b) = amerge (aset a p.1 p.2) b := rfl

/-- Lookup in `{**a, **b}`: `b`'s entries win; absent keys fall back to `a`.
(Requires `b` to have no duplicate keys, which holds for every dict the
pipeline builds.) -/
theorem aget_amerge (a b : List (κ × ν)) (k : κ)
    (hb : (b.map Prod.fst).Nodup) :
    aget (amerge a b) k =
      match aget b k with
      | some v => some v
      | none => aget a k := by
  induction b generalizing a with
  | nil => simp [aget]
  | cons p rest ih =>
    rw [List.map_cons, List.nodup_cons] at hb
    rw [amerge_cons, ih _ hb.2]
    by_cases hk : p.1 = k
    · have hrest : aget rest k = none :=
        aget_eq_none_of_not_mem rest k (hk ▸ hb.1)
      simp [hrest, aget, hk]
    · cases hr : aget rest k <;> simp [aget, hr, hk, aget_aset_ne _ _ _ _ (Ne.symm hk)]

theorem aget_amerge_of_no_key (a b : List (κ × ν)) (k : κ)
    (hb : ∀ p ∈ b, p.1 ≠ k) :
    aget (amerge a b) k = aget a k := by
  induction b generalizing a with
  | nil => rfl
  | cons p rest ih =>
    rw [amerge_cons, ih _ (fun q hq => hb q (List.mem_cons_of_mem p hq))]
    exact aget_aset_ne a p.1 k p.2 (Ne.symm (hb p (List.mem_cons_self p rest)))

/-- `KeyVal d k v`: the dict binds `k` to `v`, and every raw entry for `k`
carries exactly the value `v` (so re-assigning `v` to `k` is a no-op). -/
def KeyVal (d : List (κ × ν)) (k : κ) (v : ν) : Prop :=
  aget d k = some v ∧ ∀ p ∈ d, p.1 = k → p.2 = v

theorem KeyVal.aget {d : List (κ × ν)} {k : κ} {v : ν} (h : KeyVal d k v) :
    aget d k = some v := h.1

theorem KeyVal_aset_self (d : List (κ × ν)) (k : κ) (v : ν) :
    KeyVal (aset d k v) k v := by
  refine ⟨aget_aset_self d k v, ?_⟩
  intro p hp hpk
  rw [aset] at hp
  by_cases hk : hasKey d k
  · rw [if_pos hk] at hp
    obtain ⟨q, _, hq⟩ := List.mem_map.1 hp
    by_cases hqk : q.1 = k
    · rw [if_pos hqk] at hq; rw [← hq]
    · rw [if_neg hqk] at hq; rw [← hq] at hpk; exact absurd hpk hqk
  · rw [if_neg hk] at hp
    rcases List.mem_append.1 hp with hmem | hmem
    · exfalso
      exact hk (hasKey_of_mem_keys (hpk ▸ List.mem_map_of_mem Prod.fst hmem))
    · rw [List.mem_singleton.1 hmem]

theorem KeyVal_aset_ne {d : List (κ × ν)} {k k' : κ} {v : ν} (w : ν)
    (hne : k ≠ k') (h : KeyVal d k v) : KeyVal (aset d k' w) k v := by
  refine ⟨by rw [aget_aset_ne d k' k w hne, h.1], ?_⟩
  intro p hp hpk
  rw [aset] at hp
  by_cases hk : hasKey d k'
  · rw [if_pos hk] at hp
    obtain ⟨q, hq, hqe⟩ := List.mem_map.1 hp
    by_cases hqk : q.1 = k'
    · rw [if_pos hqk] at hqe
      rw [← hqe] at hpk
      exact absurd hpk.symm hne
    · rw [if_neg hqk] at hqe
      rw [← hqe] at hpk ⊢
      exact h.2 q hq hpk
  · rw [if_neg hk] at hp
    rcases List.mem_append.1 hp with hmem | hmem
    · exact h.2 p hmem hpk
    · rw [List.mem_singleton.1 hmem] at hpk
      exact absurd hpk.symm hne

theorem KeyVal_asetdefault_ne {d : List (κ × ν)} {k k' : κ} {v : ν} (w : ν)
    (hne : k ≠ k') (h : KeyVal d k v) : KeyVal (asetdefault d k' w) k v := by
  refine ⟨by rw [aget_asetdefault_ne d k' k w hne, h.1], ?_⟩
  intro p hp hpk
  rw [asetdefault] at hp
  by_cases hk : hasKey d k'
  · rw [if_pos hk] at hp
    exact h.2 p hp hpk
  · rw [if_neg hk] at hp
    rcases List.mem_append.1 hp with hmem | hmem
    · exact h.2 p hmem hpk
    · rw [List.mem_singleton.1 hmem] at hpk
      exact absurd hpk.symm hne

theorem aset_of_KeyVal {d : List (κ × ν)} {k : κ} {v : ν} (h : KeyVal d k v) :
    aset d k v = d := by
  have hk : hasKey d k = true := by simp [hasKey, h.1]
  rw [aset, if_pos hk, List.map_congr_left, List.map_id']
  intro p hp
  by_cases hpk : p.1 = k
  · have hv := h.2 p hp hpk
    rw [if_pos hpk]
    exact Prod.ext hpk.symm hv.symm
  · rw [if_neg hpk]

end AssocOps

/-- Record dicts flowing through the pipeline. -/
abbrev Dict := List (String × Val)

/-! ## Listing Extractor (`fetch_movies`, lines 57–100) -/

/-- One raw movie object of a listing-page response, with the fields the
extractor reads.  `none` models an absent key (`movie.get(k, default)`);
`id` and `title` are accessed with `movie[...]` and are always present in
the API schema, so they are plain fields.  `poster_path` is a string or
null/absent in the schema. -/
structure RawMovie where
  id : Val
  title : Val
  release_date : Option Val := none
  vote_average : Option Val := none
  vote_count : Option Val := none
  popularity : Option Val := none
  overview : Option Val := none
  poster_path : Option String := none
deriving DecidableEq, Repr

/-- `f"<https://image.tmdb.org/t/p/w500{movie['poster_path']}>" if
movie.get("poster_path") else None` — an absent/null/empty path is falsy. -/
def posterUrl : Option String → Val
  | some s =>
      if s ≠ "" then Val.str ("<https://image.tmdb.org/t/p/w500" ++ s ++ ">")
      else Val.null
  | none => Val.null

/-- The `movie_element` dict built for each unseen movie (lines 78–87). -/
def movieElement (mv : RawMovie) : Dict :=
  [("movie_id", mv.id),
   ("title", mv.title),
   ("release_date", mv.release_date.getD (Val.str "")),
   ("vote_average", mv.vote_average.getD Val.null),
   ("vote_count", mv.vote_count.getD Val.null),
   ("popularity", mv.popularity.getD Val.null),
   ("overview", mv.overview.getD (Val.str "No overview available")),
   ("poster_url", posterUrl mv.poster_path)]

/-- The inner loop over one page's `results`: state is the `movie_ids_seen`
set (as a list) and the accumulated `movies_list`. -/
def processPage : List RawMovie → List Val × List Dict → List Val × List Dict
  | [], st => st
  | mv :: rest, (seen, acc) =>
      if mv.id ∈ seen then processPage rest (seen, acc)
      else processPage rest (mv.id :: seen, acc ++ [movieElement mv])

/-- The page loop: the oracle list holds one entry per requested page
(`none` = `make_api_request` raised).  A failure on page 1 aborts the run;
a failure on a later page stops early and returns what was accumulated. -/
def fetchMoviesAux : List (Option (List RawMovie)) → ℕ → List Val × List Dict →
    Except String (List Dict)
  | [], _, st => Except.ok st.2
  | none :: _, page, st =>
      if page = 1 then Except.error "Error fetching page 1" else Except.ok st.2
  | some results :: rest, page, st =>
      fetchMoviesAux rest (page + 1) (processPage results st)

/-- `fetch_movies`: pages 1..max_pages, deduplicating by `movie_id` across
pages (first occurrence wins). -/
def fetch_movies (pages : List (Option (List RawMovie))) : Except String (List Dict) :=
  fetchMoviesAux pages 1 ([], [])

/-! ## Detail fetcher (`fetch_movie_details`, lines 102–127) -/

/-- A decoded detail response, holding exactly what `fetch_movie_details`
reads.  `none` models an absent key; the list-valued fields hold the `name`
strings of the sub-entities that the code joins with `', '`. -/
structure ApiDetail where
  budget : Option Val := none
  revenue : Option Val := none
  runtime : Option Val := none
  status : Option Val := none
  tagline : Option Val := none
  original_language : Option Val := none
  adult : Option Bool := none
  homepage : Option Val := none
  imdb_id : Option Val := none
  genres : List String := []
  production_companies : List String := []
  spoken_languages : List String := []
  keywords : List String := []
deriving DecidableEq, Repr

/-- `', '.join(names)`. -/
def joinNames (l : List String) : String := String.intercalate ", " l

/-- Python `str()` of a bool, for `str(movie.get('adult', False))`. -/
def pyStrBool (b : Bool) : String := if b then "True" else "False"

/-- `fetch_movie_details`: builds the detail dict on success; on any
exception (oracle `none`) returns the identifier-only stub (line 127). -/
def fetch_movie_details (api : Val → Option ApiDetail) (movie_id : Val) : Dict :=
  match api movie_id with
  | some movie =>
      [("movie_id", movie_id),
       ("budget", movie.budget.getD Val.null),
       ("revenue", movie.revenue.getD Val.null),
       ("runtime", movie.runtime.getD Val.null),
       ("status", movie.status.getD (Val.str "")),
       ("tagline", movie.tagline.getD (Val.str "")),
       ("genres", Val.str (joinNames movie.genres)),
       ("production_companies", Val.str (joinNames movie.production_companies)),
       ("spoken_languages", Val.str (joinNames movie.spoken_languages)),
       ("original_language", movie.original_language.getD (Val.str "")),
       ("adult", Val.str (pyStrBool (movie.adult.getD false))),
       ("homepage", movie.homepage.getD (Val.str "")),
       ("imdb_id", movie.imdb_id.getD (Val.str "")),
       ("keywords", Val.str (joinNames movie.keywords))]
  | none => [("movie_id", movie_id)]

/-! ## Detail Enricher (`enrich_movie_data_parallel`, lines 129–169) -/

/-- `movie["movie_id"]`.  Python raises `KeyError` when the key is absent;
the model returns the inert `null` (every record the pipeline builds has
the key). -/
def idOf (d : Dict) : Val := (aget d "movie_id").getD Val.null

/-- The dedup loop of lines 132–139 (and the final-dedup loop of lines
263–267, which has the same first-occurrence-wins semantics). -/
def dedupByIdAux : List Dict → List Val → List Dict
  | [], _ => []
  | m :: ms, seen =>
      if idOf m ∈ seen then dedupByIdAux ms seen
      else m :: dedupByIdAux ms (idOf m :: seen)

def dedupById (l : List Dict) : List Dict := dedupByIdAux l []

/-- Python list slicing `l[:n]` with a stop bound only (negative stops count
from the end). -/
def pySliceStop {α : Type} (l : List α) (n : ℤ) : List α :=
  if 0 ≤ n then l.take n.toNat else l.take (l.length - (-n).toNat)

/-- `unique_movies[:max_details] if max_details else unique_movies`
(line 144).  Note Python truthiness: `None` *and* `0` both skip the
truncation. -/
def moviesToProcess (l : List Dict) (max_details : Option ℤ) : List Dict :=
  match max_details with
  | some n => if n ≠ 0 then pySliceStop l n else l
  | none => l

/-- `{detail['movie_id']: detail for detail in details_list if detail}`
(line 153): an empty dict is falsy and skipped; later duplicates would
overwrite earlier ones. -/
def buildDetailsDict (details_list : List Dict) : List (Val × Dict) :=
  details_list.foldl (fun acc d => if d ≠ [] then aset acc (idOf d) d else acc) []

/-- `enrich_movie_data_parallel`.  The thread pool's `executor.map` keeps
input order, so it is a plain `List.map` over the selected identifiers;
the join barrier is implicit in building `details_dict` afterwards. -/
def enrich_movie_data_parallel (api : Val → Option ApiDetail)
    (movies_list : List Dict) (max_details : Option ℤ) : List Dict :=
  let unique_movies := dedupById movies_list
  let movies_to_process := moviesToProcess unique_movies max_details
  let movie_ids := movies_to_process.map idOf
  let details_list := movie_ids.map (fetch_movie_details api)
  let details_dict := buildDetailsDict details_list
  movies_to_process.map (fun movie =>
    match aget details_dict (idOf movie) with
    | some detail => amerge movie (apop detail "movie_id")
    | none => movie)

/-! ## Statistics & Imputation Engine (`calculate_statistics`, lines 171–200) -/

def numerical_features : List String :=
  ["vote_average", "vote_count", "popularity", "runtime", "budget", "revenue"]

def median_features : List String := ["budget", "revenue", "vote_count"]

/-- The collection loop of lines 178–181 for one feature: append
`float(movie[feature])` whenever the key is present and not `None`.
`float()` of a non-numeric value would raise in Python; the model collects
exactly the numeric values (theorems about statistics carry the matching
well-typedness hypothesis). -/
def collectValues (movies_list : List Dict) (f : String) : List ℚ :=
  movies_list.foldl (fun acc movie =>
    match aget movie f with
    | some (Val.num q) => acc ++ [q]
    | _ => acc) []

/-- Stable insertion into a sorted list. -/
def insertSorted (x : ℚ) : List ℚ → List ℚ
  | [] => [x]
  | y :: ys => if x ≤ y then x :: y :: ys else y :: insertSorted x ys

/-- Python `sorted(data)`: numbers have a total order, so the sorted
arrangement of the multiset is unique and insertion sort computes exactly
what timsort does. -/
def pySorted (l : List ℚ) : List ℚ := l.foldr insertSorted []

/-- `statistics.median`: sort, then take the middle element (odd length) or
the average of the two middle elements (even length). -/
def median (l : List ℚ) : ℚ :=
  let s := pySorted l
  if s.length % 2 = 1 then s.getD (s.length / 2) 0
  else (s.getD (s.length / 2 - 1) 0 + s.getD (s.length / 2) 0) / 2

/-- `statistics.mean`: exact arithmetic mean. -/
def mean (l : List ℚ) : ℚ := l.sum / l.length

/-- `calculate_statistics`: median for budget/revenue/vote_count, mean for
the others, 0 when no values were observed.  (The Python result is a dict
over exactly `numerical_features`; the model is its lookup function.) -/
def calculate_statistics (movies_list : List Dict) : String → ℚ := fun f =>
  let vs := collectValues movies_list f
  if vs ≠ [] then (if f ∈ median_features then median vs else mean vs) else 0

/-! ## `datetime.strptime(s, '%Y-%m-%d')` -/

def digitVal (c : Char) : ℕ := c.toNat - '0'.toNat

/-- The day regex of CPython's `_strptime`: `3[01]|[12]\d|0[1-9]|[1-9]`,
each alternative followed by end-of-input (backtracking across the
alternation). -/
def pDayEnd (cs : List Char) : Option ℕ :=
  (match cs with
   | '3' :: c :: [] => if c = '0' ∨ c = '1' then some (30 + digitVal c) else none
   | _ => none).orElse fun _ =>
  (match cs with
   | c1 :: c2 :: [] =>
       if (c1 = '1' ∨ c1 = '2') ∧ c2.isDigit then
         some (10 * digitVal c1 + digitVal c2)
       else none
   | _ => none).orElse fun _ =>
  (match cs with
   | '0' :: c :: [] => if '1' ≤ c ∧ c ≤ '9' then some (digitVal c) else none
   | _ => none).orElse fun _ =>
  (match cs with
   | c :: [] => if '1' ≤ c ∧ c ≤ '9' then some (digitVal c) else none
   | _ => none)

/-- The month regex `1[0-2]|0[1-9]|[1-9]`, each alternative followed by the
literal `-` and the day pattern. -/
def pMonthDayEnd (cs : List Char) : Option (ℕ × ℕ) :=
  (match cs with
   | '1' :: c :: '-' :: rest =>
       if '0' ≤ c ∧ c ≤ '2' then (pDayEnd rest).map (fun d => (10 + digitVal c, d))
       else none
   | _ => none).orElse fun _ =>
  (match cs with
   | '0' :: c :: '-' :: rest =>
       if '1' ≤ c ∧ c ≤ '9' then (pDayEnd rest).map (fun d => (digitVal c, d))
       else none
   | _ => none).orElse fun _ =>
  (match cs with
   | c :: '-' :: rest =>
       if '1' ≤ c ∧ c ≤ '9' then (pDayEnd rest).map (fun d => (digitVal c, d))
       else none
   | _ => none)

/-- The year field `%Y` matches exactly four digits, followed by `-` and
the month/day pattern. -/
def pYMD (cs : List Char) : Option (ℕ × ℕ × ℕ) :=
  match cs with
  | y1 :: y2 :: y3 :: y4 :: '-' :: rest =>
      if y1.isDigit ∧ y2.isDigit ∧ y3.isDigit ∧ y4.isDigit then
        (pMonthDayEnd rest).map (fun md =>
          (1000 * digitVal y1 + 100 * digitVal y2 + 10 * digitVal y3 + digitVal y4,
           md.1, md.2))
      else none
  | _ => none

def isLeapYear (y : ℕ) : Bool := y % 4 = 0 ∧ (y % 100 ≠ 0 ∨ y % 400 = 0)

def daysInMonth (y m : ℕ) : ℕ :=
  if m = 2 then (if isLeapYear y then 29 else 28)
  else if m ∈ [4, 6, 9, 11] then 30 else 31

/-- `datetime.strptime(s, '%Y-%m-%d')`: regex match, then the `datetime`
constructor validates the calendar date (year ≥ 1, day within the month;
the regex already bounds month to 1..12 and day to 1..31). -/
def strptimeYMD (s : String) : Option (ℕ × ℕ × ℕ) :=
  match pYMD s.toList with
  | some (y, m, d) =>
      if 1 ≤ y ∧ 1 ≤ d ∧ d ≤ daysInMonth y m then some (y, m, d) else none
  | none => none

/-! ## Feature Transformer (`clean_transform_data`, lines 202–273) -/

/-- `movie.get(f) if movie.get(f) is not None else stats[f]` — a present
non-`None` value is kept (even 0 or a negative number), a missing/`None`
value becomes the statistic. -/
def imputedVal (o : Option Val) (q : ℚ) : Val :=
  match o with
  | some v => if v = Val.null then Val.num q else v
  | none => Val.num q

/-- One imputation assignment (lines 215–220). -/
def imputeField (m : Dict) (f : String) (q : ℚ) : Dict :=
  aset m f (imputedVal (aget m f) q)

/-- Lines 215–220 in source order. -/
def imputePhase (stats : String → ℚ) (m : Dict) : Dict :=
  imputeField (imputeField (imputeField (imputeField (imputeField (imputeField m
    "vote_average" (stats "vote_average"))
    "vote_count" (stats "vote_count"))
    "popularity" (stats "popularity"))
    "runtime" (stats "runtime"))
    "budget" (stats "budget"))
    "revenue" (stats "revenue")

/-- Lines 223–229 in source order. -/
def defaultPhase (m : Dict) : Dict :=
  asetdefault (asetdefault (asetdefault (asetdefault (asetdefault (asetdefault
    (asetdefault m
    "overview" (Val.str "No overview available"))
    "tagline" (Val.str ""))
    "genres" (Val.str "Unknown"))
    "production_companies" (Val.str "Unknown"))
    "spoken_languages" (Val.str "Unknown"))
    "original_language" (Val.str "Unknown"))
    "keywords" (Val.str "")

/-- Lines 231–240: `release_year` from `release_date`.  A missing or falsy
(empty) value gives `None`; a truthy string is parsed, with `ValueError` on
a failed parse caught to `None`; a truthy non-string makes `strptime` raise
`TypeError`, which the same `except` clause also catches to `None`. -/
def releaseYearVal : Option Val → Val
  | some (Val.str s) =>
      if s ≠ "" then
        match strptimeYMD s with
        | some (y, _, _) => Val.num (y : ℚ)
        | none => Val.null
      else Val.null
  | some _ => Val.null
  | none => Val.null

/-- `movie[k]` on a key the cleaning step guarantees present (`KeyError`
otherwise in Python; inert `null` in the model). -/
def dgetV (m : Dict) (k : String) : Val := (aget m k).getD Val.null

/-- Python `x - y` on the pipeline's values.  Non-numeric operands raise
`TypeError` in Python and are inert `null` here; `inf - number = inf`. -/
def valSub : Val → Val → Val
  | Val.num a, Val.num b => Val.num (a - b)
  | Val.inf, Val.num _ => Val.inf
  | _, _ => Val.null

/-- Python `x / y` where the call sites guarantee `y > 0`. -/
def valDiv : Val → Val → Val
  | Val.num a, Val.num b => Val.num (a / b)
  | Val.inf, Val.num _ => Val.inf
  | Val.num _, Val.inf => Val.num 0
  | _, _ => Val.null

/-- Python `x > 0` (`inf > 0` is true; non-numeric raises in Python, false
here). -/
def valGtZero : Val → Bool
  | Val.num q => decide (0 < q)
  | Val.inf => true
  | _ => false

/-- Python `x < c` for a numeric literal `c` (`inf < c` is false). -/
def valLtC (v : Val) (c : ℚ) : Bool :=
  match v with
  | Val.num q => decide (q < c)
  | _ => false

/-- Lines 245–250: the `roi` value.  `movie['revenue'] == 0` is a Python
`==`, which is `False` (not an error) on non-numeric values. -/
def roiVal (b r : Val) : Val :=
  if valGtZero b then valDiv (valSub r b) b
  else if r = Val.num 0 then Val.num 0 else Val.inf

/-- Lines 252–258: popularity buckets. -/
def popCategory (p : Val) : Val :=
  if valLtC p 100 then Val.str "Low"
  else if valLtC p 500 then Val.str "Medium"
  else Val.str "High"

/-- Lines 231–240: assign the computed `release_year`. -/
def deriveReleaseYear (m : Dict) : Dict :=
  aset m "release_year" (releaseYearVal (aget m "release_date"))

/-- Line 243: `movie['profit'] = movie['revenue'] - movie['budget']`. -/
def deriveProfit (m : Dict) : Dict :=
  aset m "profit" (valSub (dgetV m "revenue") (dgetV m "budget"))

/-- Lines 245–250. -/
def deriveRoi (m : Dict) : Dict :=
  aset m "roi" (roiVal (dgetV m "budget") (dgetV m "revenue"))

/-- Lines 252–258. -/
def derivePopCategory (m : Dict) : Dict :=
  aset m "popularity_category" (popCategory (dgetV m "popularity"))

/-- The per-record body of the cleaning loop (lines 213–260), in source
order: impute the six numeric fields, default the seven string fields, then
derive `release_year`, `profit`, `roi` and `popularity_category`. -/
def cleanRecord (stats : String → ℚ) (movie : Dict) : Dict :=
  derivePopCategory (deriveRoi (deriveProfit (deriveReleaseYear
    (defaultPhase (imputePhase stats movie)))))

/-- `clean_transform_data`: early return on empty input, statistics over the
input, the per-record loop, then the defensive final dedup by `movie_id`
(insertion-ordered dict, first occurrence wins). -/
def clean_transform_data (movies_list : List Dict) : List Dict :=
  if movies_list = [] then []
  else
    let stats := calculate_statistics movies_list
    let cleaned_movies := movies_list.map (cleanRecord stats)
    dedupById cleaned_movies

/-! ## Sink Adapter and handler payload (lines 275–331) -/

/-- Default of the `S3_FILE_NAME` configuration (line 21). -/
def S3_FILE_NAME_default : String := "movies_data_enriched.csv"

/-- The object key actually written by `upload_to_s3` (lines 289–290). -/
def uploadFileKey (date_suffix : String) : String :=
  "daily_outputs/movies_data_" ++ date_suffix ++ ".csv"

/-- The `destination` field of the success payload (line 329), and the URI
of an object `key` in `bucket`. -/
def s3Uri (bucket key : String) : String := "s3://" ++ bucket ++ "/" ++ key

/-! ## Lemmas about the Detail Enricher -/

theorem fetch_movie_details_ne_nil (api : Val → Option ApiDetail) (v : Val) :
    fetch_movie_details api v ≠ [] := by
  unfold fetch_movie_details
  cases api v <;> simp

theorem idOf_fetch_movie_details (api : Val → Option ApiDetail) (v : Val) :
    idOf (fetch_movie_details api v) = v := by
  unfold fetch_movie_details idOf
  cases api v <;> simp [aget]

theorem fetch_movie_details_keys_none {api : Val → Option ApiDetail} {v : Val}
    (h : api v = none) : fetch_movie_details api v = [("movie_id", v)] := by
  unfold fetch_movie_details
  rw [h]

theorem fetch_movie_details_keys_nodup (api : Val → Option ApiDetail) (v : Val) :
    ((fetch_movie_details api v).map Prod.fst).Nodup := by
  cases h : api v with
  | none =>
    have hk : (fetch_movie_details api v).map Prod.fst = ["movie_id"] := by
      rw [fetch_movie_details_keys_none h]
      rfl
    rw [hk]
    decide
  | some m =>
    have hk : (fetch_movie_details api v).map Prod.fst =
        ["movie_id", "budget", "revenue", "runtime", "status", "tagline",
         "genres", "production_companies", "spoken_languages",
         "original_language", "adult", "homepage", "imdb_id", "keywords"] := by
      rw [show fetch_movie_details api v =
            [("movie_id", v),
             ("budget", m.budget.getD Val.null),
             ("revenue", m.revenue.getD Val.null),
             ("runtime", m.runtime.getD Val.null),
             ("status", m.status.getD (Val.str "")),
             ("tagline", m.tagline.getD (Val.str "")),
             ("genres", Val.str (joinNames m.genres)),
             ("production_companies", Val.str (joinNames m.production_companies)),
             ("spoken_languages", Val.str (joinNames m.spoken_languages)),
             ("original_language", m.original_language.getD (Val.str "")),
             ("adult", Val.str (pyStrBool (m.adult.getD false))),
             ("homepage", m.homepage.getD (Val.str "")),
             ("imdb_id", m.imdb_id.getD (Val.str "")),
             ("keywords", Val.str (joinNames m.keywords))] from by
          unfold fetch_movie_details
          rw [h]]
      rfl
    rw [hk]
    decide

theorem aget_buildDetailsDict_aux (api : Val → Option ApiDetail) (ids : List Val)
    (acc : List (Val × Dict)) (v : Val)
    (hv : v ∈ ids ∨ aget acc v = some (fetch_movie_details api v)) :
    aget ((ids.map (fetch_movie_details api)).foldl
        (fun a d => if d ≠ [] then aset a (idOf d) d else a) acc) v
      = some (fetch_movie_details api v) := by
  induction ids generalizing acc with
  | nil =>
    rcases hv with h | h
    · simp at h
    · simpa using h
  | cons i rest ih =>
    rw [List.map_cons, List.foldl_cons,
      if_pos (fetch_movie_details_ne_nil api i), idOf_fetch_movie_details]
    apply ih
    by_cases hvi : v = i
    · right
      rw [hvi, aget_aset_self]
    · rcases hv with h | h
      · rcases List.mem_cons.1 h with h1 | h1
        · exact absurd h1 hvi
        · left; exact h1
      · right
        rw [aget_aset_ne _ _ _ _ hvi, h]

theorem aget_buildDetailsDict (api : Val → Option ApiDetail) (ids : List Val)
    (v : Val) (hv : v ∈ ids) :
    aget (buildDetailsDict (ids.map (fetch_movie_details api))) v
      = some (fetch_movie_details api v) :=
  aget_buildDetailsDict_aux api ids [] v (Or.inl hv)

/-- Every detail is found in `details_dict`, so line 167's pass-through
branch is dead and the enricher is a plain map of the merge over the
selected listings. -/
theorem enrich_eq_map (api : Val → Option ApiDetail) (movies_list : List Dict)
    (max_details : Option ℤ) :
    enrich_movie_data_parallel api movies_list max_details =
      (moviesToProcess (dedupById movies_list) max_details).map
        (fun movie =>
          amerge movie (apop (fetch_movie_details api (idOf movie)) "movie_id")) := by
  unfold enrich_movie_data_parallel
  apply List.map_congr_left
  intro movie hmovie
  rw [aget_buildDetailsDict api _ (idOf movie) (List.mem_map_of_mem idOf hmovie)]

/-! ## Lemmas about deduplication and truncation -/

theorem mem_of_mem_dedupByIdAux {l : List Dict} {seen : List Val} {d : Dict}
    (h : d ∈ dedupByIdAux l seen) : d ∈ l := by
  induction l generalizing seen with
  | nil => simp [dedupByIdAux] at h
  | cons m ms ih =>
    rw [dedupByIdAux] at h
    by_cases hm : idOf m ∈ seen
    · rw [if_pos hm] at h
      exact List.mem_cons_of_mem m (ih h)
    · rw [if_neg hm] at h
      rcases List.mem_cons.1 h with h1 | h1
      · rw [h1]; exact List.mem_cons_self m ms
      · exact List.mem_cons_of_mem m (ih h1)

theorem mem_map_idOf_dedupByIdAux (l : List Dict) (seen : List Val) (v : Val) :
    v ∈ (dedupByIdAux l seen).map idOf ↔ v ∈ l.map idOf ∧ v ∉ seen := by
  induction l generalizing seen with
  | nil => simp [dedupByIdAux]
  | cons m ms ih =>
    rw [dedupByIdAux, List.map_cons]
    by_cases hm : idOf m ∈ seen
    · rw [if_pos hm, ih]
      constructor
      · rintro ⟨h1, h2⟩
        exact ⟨List.mem_cons_of_mem _ h1, h2⟩
      · rintro ⟨h1, h2⟩
        rcases List.mem_cons.1 h1 with h3 | h3
        · exact absurd (show v ∈ seen from by rw [h3]; exact hm) h2
        · exact ⟨h3, h2⟩
    · rw [if_neg hm, List.map_cons]
      constructor
      · intro h
        rcases List.mem_cons.1 h with h1 | h1
        · refine ⟨by rw [h1]; exact List.mem_cons_self _ _, ?_⟩
          rw [h1]; exact hm
        · obtain ⟨h2, h3⟩ := (ih _).1 h1
          exact ⟨List.mem_cons_of_mem _ h2,
            fun hc => h3 (List.mem_cons_of_mem _ hc)⟩
      · rintro ⟨h1, h2⟩
        rcases List.mem_cons.1 h1 with h3 | h3
        · rw [h3]; exact List.mem_cons_self _ _
        · by_cases hv : v = idOf m
          · rw [hv]; exact List.mem_cons_self _ _
          · refine List.mem_cons_of_mem _ ((ih _).2 ⟨h3, ?_⟩)
            intro hc
            rcases List.mem_cons.1 hc with h4 | h4
            · exact hv h4
            · exact h2 h4

theorem nodup_map_idOf_dedupByIdAux (l : List Dict) (seen : List Val) :
    ((dedupByIdAux l seen).map idOf).Nodup := by
  induction l generalizing seen with
  | nil => simp [dedupByIdAux]
  | cons m ms ih =>
    rw [dedupByIdAux]
    by_cases hm : idOf m ∈ seen
    · rw [if_pos hm]; exact ih seen
    · rw [if_neg hm, List.map_cons, List.nodup_cons]
      refine ⟨?_, ih _⟩
      intro hc
      exact ((mem_map_idOf_dedupByIdAux ms _ (idOf m)).1 hc).2 (List.mem_cons_self _ _)

theorem dedupByIdAux_eq_self {l : List Dict} {seen : List Val}
    (h1 : (l.map idOf).Nodup) (h2 : ∀ d ∈ l, idOf d ∉ seen) :
    dedupByIdAux l seen = l := by
  induction l generalizing seen with
  | nil => rfl
  | cons m ms ih =>
    rw [List.map_cons, List.nodup_cons] at h1
    rw [dedupByIdAux, if_neg (h2 m (List.mem_cons_self m ms))]
    congr 1
    apply ih h1.2
    intro d hd
    intro hc
    rcases List.mem_cons.1 hc with h3 | h3
    · exact h1.1 (h3 ▸ List.mem_map_of_mem idOf hd)
    · exact h2 d (List.mem_cons_of_mem m hd) h3

theorem dedupById_map_idOf_nodup (l : List Dict) :
    ((dedupById l).map idOf).Nodup := nodup_map_idOf_dedupByIdAux l []

theorem mem_map_idOf_dedupById (l : List Dict) (v : Val) :
    v ∈ (dedupById l).map idOf ↔ v ∈ l.map idOf := by
  rw [dedupById, mem_map_idOf_dedupByIdAux]
  simp

theorem dedupById_eq_self {l : List Dict} (h : (l.map idOf).Nodup) :
    dedupById l = l :=
  dedupByIdAux_eq_self h (by simp)

theorem mem_of_mem_dedupById {l : List Dict} {d : Dict} (h : d ∈ dedupById l) :
    d ∈ l := mem_of_mem_dedupByIdAux h

theorem dedupById_length (l : List Dict) :
    (dedupById l).length = (l.map idOf).dedup.length := by
  have hperm : ((dedupById l).map idOf).Perm ((l.map idOf).dedup) := by
    rw [List.perm_ext_iff_of_nodup (dedupById_map_idOf_nodup l) (l.map idOf).nodup_dedup]
    intro v
    rw [mem_map_idOf_dedupById, List.mem_dedup]
  have := hperm.length_eq
  simpa using this

theorem dedupById_cons_ne_nil (m : Dict) (ms : List Dict) :
    dedupById (m :: ms) ≠ [] := by
  rw [dedupById, dedupByIdAux, if_neg (by simp)]
  simp

theorem moviesToProcess_none (l : List Dict) : moviesToProcess l none = l := rfl

theorem moviesToProcess_zero (l : List Dict) : moviesToProcess l (some 0) = l := by
  simp [moviesToProcess]

theorem moviesToProcess_pos (l : List Dict) (n : ℕ) (h : 0 < n) :
    moviesToProcess l (some (n : ℤ)) = l.take n := by
  have h1 : (n : ℤ) ≠ 0 := by positivity
  have h2 : (0 : ℤ) ≤ (n : ℤ) := by positivity
  simp [moviesToProcess, pySliceStop, h1, h2, Int.toNat_natCast]

theorem moviesToProcess_sublist (l : List Dict) (md : Option ℤ) :
    (moviesToProcess l md).Sublist l := by
  match md with
  | none => exact List.Sublist.refl l
  | some n =>
    rw [moviesToProcess]
    by_cases hn : n ≠ 0
    · rw [if_pos hn, pySliceStop]
      by_cases h0 : (0 : ℤ) ≤ n
      · rw [if_pos h0]; exact List.take_sublist _ l
      · rw [if_neg h0]; exact List.take_sublist _ l
    · rw [if_neg hn]

/-! ## Lemmas about the cleaning transform -/

theorem imputedVal_ne_null (o : Option Val) (q : ℚ) : imputedVal o q ≠ Val.null := by
  match o with
  | none => simp [imputedVal]
  | some v =>
    by_cases h : v = Val.null <;> simp [imputedVal, h]

@[simp]
theorem imputedVal_some_imputedVal (o : Option Val) (q q' : ℚ) :
    imputedVal (some (imputedVal o q)) q' = imputedVal o q := by
  rw [show imputedVal (some (imputedVal o q)) q'
        = if imputedVal o q = Val.null then Val.num q' else imputedVal o q from rfl,
    if_neg (imputedVal_ne_null o q)]

theorem KeyVal_aset_self_of_eq {κ ν : Type} [DecidableEq κ] {d : List (κ × ν)}
    {k : κ} {v w : ν} (h : v = w) : KeyVal (aset d k v) k w :=
  h ▸ KeyVal_aset_self d k v

theorem KeyVal_imputeField_self (m : Dict) (f : String) (q : ℚ) :
    KeyVal (imputeField m f q) f (imputedVal (aget m f) q) :=
  KeyVal_aset_self m f _

theorem KeyVal_imputeField_ne {d : Dict} {k : String} {v : Val} (q : ℚ)
    {f : String} (hne : k ≠ f) (h : KeyVal d k v) :
    KeyVal (imputeField d f q) k v :=
  KeyVal_aset_ne _ hne h

theorem KeyVal_defaultPhase_ne {d : Dict} {k : String} {v : Val}
    (h1 : k ≠ "overview") (h2 : k ≠ "tagline") (h3 : k ≠ "genres")
    (h4 : k ≠ "production_companies") (h5 : k ≠ "spoken_languages")
    (h6 : k ≠ "original_language") (h7 : k ≠ "keywords")
    (h : KeyVal d k v) : KeyVal (defaultPhase d) k v := by
  unfold defaultPhase
  exact KeyVal_asetdefault_ne _ h7 (KeyVal_asetdefault_ne _ h6
    (KeyVal_asetdefault_ne _ h5 (KeyVal_asetdefault_ne _ h4
    (KeyVal_asetdefault_ne _ h3 (KeyVal_asetdefault_ne _ h2
    (KeyVal_asetdefault_ne _ h1 h))))))

theorem KeyVal_cleanRecord_vote_average (s : String → ℚ) (m : Dict) :
    KeyVal (cleanRecord s m) "vote_average"
      (imputedVal (aget m "vote_average") (s "vote_average")) := by
  unfold cleanRecord derivePopCategory deriveRoi deriveProfit deriveReleaseYear
  refine KeyVal_aset_ne _ (by decide) (KeyVal_aset_ne _ (by decide)
    (KeyVal_aset_ne _ (by decide) (KeyVal_aset_ne _ (by decide) ?_)))
  refine KeyVal_defaultPhase_ne (by decide) (by decide) (by decide) (by decide)
    (by decide) (by decide) (by decide) ?_
  unfold imputePhase
  refine KeyVal_imputeField_ne _ (by decide) (KeyVal_imputeField_ne _ (by decide)
    (KeyVal_imputeField_ne _ (by decide) (KeyVal_imputeField_ne _ (by decide)
    (KeyVal_imputeField_ne _ (by decide) ?_))))
  exact KeyVal_imputeField_self m "vote_average" (s "vote_average")

theorem KeyVal_cleanRecord_vote_count (s : String → ℚ) (m : Dict) :
    KeyVal (cleanRecord s m) "vote_count"
      (imputedVal (aget m "vote_count") (s "vote_count")) := by
  unfold cleanRecord derivePopCategory deriveRoi deriveProfit deriveReleaseYear
  refine KeyVal_aset_ne _ (by decide) (KeyVal_aset_ne _ (by decide)
    (KeyVal_aset_ne _ (by decide) (KeyVal_aset_ne _ (by decide) ?_)))
  refine KeyVal_defaultPhase_ne (by decide) (by decide) (by decide) (by decide)
    (by decide) (by decide) (by decide) ?_
  unfold imputePhase
  refine KeyVal_imputeField_ne _ (by decide) (KeyVal_imputeField_ne _ (by decide)
    (KeyVal_imputeField_ne _ (by decide) (KeyVal_imputeField_ne _ (by decide) ?_)))
  refine KeyVal_aset_self_of_eq ?_
  simp [imputeField]

theorem KeyVal_cleanRecord_popularity (s : String → ℚ) (m : Dict) :
    KeyVal (cleanRecord s m) "popularity"
      (imputedVal (aget m "popularity") (s "popularity")) := by
  unfold cleanRecord derivePopCategory deriveRoi deriveProfit deriveReleaseYear
  refine KeyVal_aset_ne _ (by decide) (KeyVal_aset_ne _ (by decide)
    (KeyVal_aset_ne _ (by decide) (KeyVal_aset_ne _ (by decide) ?_)))
  refine KeyVal_defaultPhase_ne (by decide) (by decide) (by decide) (by decide)
    (by decide) (by decide) (by decide) ?_
  unfold imputePhase
  refine KeyVal_imputeField_ne _ (by decide) (KeyVal_imputeField_ne _ (by decide)
    (KeyVal_imputeField_ne _ (by decide) ?_))
  refine KeyVal_aset_self_of_eq ?_
  simp [imputeField]

theorem KeyVal_cleanRecord_runtime (s : String → ℚ) (m : Dict) :
    KeyVal (cleanRecord s m) "runtime"
      (imputedVal (aget m "runtime") (s "runtime")) := by
  unfold cleanRecord derivePopCategory deriveRoi deriveProfit deriveReleaseYear
  refine KeyVal_aset_ne _ (by decide) (KeyVal_aset_ne _ (by decide)
    (KeyVal_aset_ne _ (by decide) (KeyVal_aset_ne _ (by decide) ?_)))
  refine KeyVal_defaultPhase_ne (by decide) (by decide) (by decide) (by decide)
    (by decide) (by decide) (by decide) ?_
  unfold imputePhase
  refine KeyVal_imputeField_ne _ (by decide) (KeyVal_imputeField_ne _ (by decide) ?_)
  refine KeyVal_aset_self_of_eq ?_
  simp [imputeField]

theorem KeyVal_cleanRecord_budget (s : String → ℚ) (m : Dict) :
    KeyVal (cleanRecord s m) "budget"
      (imputedVal (aget m "budget") (s "budget")) := by
  unfold cleanRecord derivePopCategory deriveRoi deriveProfit deriveReleaseYear
  refine KeyVal_aset_ne _ (by decide) (KeyVal_aset_ne _ (by decide)
    (KeyVal_aset_ne _ (by decide) (KeyVal_aset_ne _ (by decide) ?_)))
  refine KeyVal_defaultPhase_ne (by decide) (by decide) (by decide) (by decide)
    (by decide) (by decide) (by decide) ?_
  unfold imputePhase
  refine KeyVal_imputeField_ne _ (by decide) ?_
  refine KeyVal_aset_self_of_eq ?_
  simp [imputeField]

theorem KeyVal_cleanRecord_revenue (s : String → ℚ) (m : Dict) :
    KeyVal (cleanRecord s m) "revenue"
      (imputedVal (aget m "revenue") (s "revenue")) := by
  unfold cleanRecord derivePopCategory deriveRoi deriveProfit deriveReleaseYear
  refine KeyVal_aset_ne _ (by decide) (KeyVal_aset_ne _ (by decide)
    (KeyVal_aset_ne _ (by decide) (KeyVal_aset_ne _ (by decide) ?_)))
  refine KeyVal_defaultPhase_ne (by decide) (by decide) (by decide) (by decide)
    (by decide) (by decide) (by decide) ?_
  unfold imputePhase
  refine KeyVal_aset_self_of_eq ?_
  simp [imputeField]

theorem aget_cleanRecord_feature (s : String → ℚ) (m : Dict) (f : String)
    (hf : f ∈ numerical_features) :
    aget (cleanRecord s m) f = some (imputedVal (aget m f) (s f)) := by
  fin_cases hf
  · exact (KeyVal_cleanRecord_vote_average s m).aget
  · exact (KeyVal_cleanRecord_vote_count s m).aget
  · exact (KeyVal_cleanRecord_popularity s m).aget
  · exact (KeyVal_cleanRecord_runtime s m).aget
  · exact (KeyVal_cleanRecord_budget s m).aget
  · exact (KeyVal_cleanRecord_revenue s m).aget

theorem dgetV_cleanRecord_feature (s : String → ℚ) (m : Dict) (f : String)
    (hf : f ∈ numerical_features) :
    dgetV (cleanRecord s m) f = imputedVal (aget m f) (s f) := by
  rw [dgetV, aget_cleanRecord_feature s m f hf]
  rfl

theorem aget_cleanRecord_release_date (s : String → ℚ) (m : Dict) :
    aget (cleanRecord s m) "release_date" = aget m "release_date" := by
  simp [cleanRecord, derivePopCategory, deriveRoi, deriveProfit,
    deriveReleaseYear, defaultPhase, imputePhase, imputeField]

theorem KeyVal_cleanRecord_release_year (s : String → ℚ) (m : Dict) :
    KeyVal (cleanRecord s m) "release_year"
      (releaseYearVal (aget m "release_date")) := by
  unfold cleanRecord derivePopCategory deriveRoi deriveProfit
  apply KeyVal_aset_ne
  · decide
  apply KeyVal_aset_ne
  · decide
  apply KeyVal_aset_ne
  · decide
  unfold deriveReleaseYear
  refine KeyVal_aset_self_of_eq ?_
  simp [defaultPhase, imputePhase, imputeField]

theorem KeyVal_cleanRecord_profit (s : String → ℚ) (m : Dict) :
    KeyVal (cleanRecord s m) "profit"
      (valSub (imputedVal (aget m "revenue") (s "revenue"))
        (imputedVal (aget m "budget") (s "budget"))) := by
  unfold cleanRecord derivePopCategory deriveRoi
  apply KeyVal_aset_ne
  · decide
  apply KeyVal_aset_ne
  · decide
  unfold deriveProfit
  refine KeyVal_aset_self_of_eq ?_
  simp [dgetV, deriveReleaseYear, defaultPhase, imputePhase, imputeField]

theorem KeyVal_cleanRecord_roi (s : String → ℚ) (m : Dict) :
    KeyVal (cleanRecord s m) "roi"
      (roiVal (imputedVal (aget m "budget") (s "budget"))
        (imputedVal (aget m "revenue") (s "revenue"))) := by
  unfold cleanRecord derivePopCategory
  apply KeyVal_aset_ne
  · decide
  unfold deriveRoi
  refine KeyVal_aset_self_of_eq ?_
  simp [dgetV, deriveProfit, deriveReleaseYear, defaultPhase, imputePhase,
    imputeField]

theorem KeyVal_cleanRecord_popularity_category (s : String → ℚ) (m : Dict) :
    KeyVal (cleanRecord s m) "popularity_category"
      (popCategory (imputedVal (aget m "popularity") (s "popularity"))) := by
  unfold cleanRecord derivePopCategory
  refine KeyVal_aset_self_of_eq ?_
  simp [dgetV, deriveRoi, deriveProfit, deriveReleaseYear, defaultPhase,
    imputePhase, imputeField]

theorem aget_cleanRecord_default_isSome (s : String → ℚ) (m : Dict) (k : String)
    (hk : k ∈ ["overview", "tagline", "genres", "production_companies",
      "spoken_languages", "original_language", "keywords"]) :
    (aget (cleanRecord s m) k).isSome := by
  fin_cases hk <;>
    simp [cleanRecord, derivePopCategory, deriveRoi, deriveProfit,
      deriveReleaseYear, defaultPhase, imputePhase, imputeField]

theorem imputeField_id_of_KeyVal {m' : Dict} {f : String} {o : Option Val}
    {q : ℚ} (q' : ℚ) (hkv : KeyVal m' f (imputedVal o q)) :
    imputeField m' f q' = m' := by
  rw [imputeField, hkv.aget, imputedVal_some_imputedVal, aset_of_KeyVal hkv]

theorem imputePhase_cleanRecord (s2 s1 : String → ℚ) (m : Dict) :
    imputePhase s2 (cleanRecord s1 m) = cleanRecord s1 m := by
  show imputeField (imputeField (imputeField (imputeField (imputeField
    (imputeField (cleanRecord s1 m)
    "vote_average" (s2 "vote_average"))
    "vote_count" (s2 "vote_count"))
    "popularity" (s2 "popularity"))
    "runtime" (s2 "runtime"))
    "budget" (s2 "budget"))
    "revenue" (s2 "revenue") = cleanRecord s1 m
  rw [imputeField_id_of_KeyVal _ (KeyVal_cleanRecord_vote_average s1 m),
    imputeField_id_of_KeyVal _ (KeyVal_cleanRecord_vote_count s1 m),
    imputeField_id_of_KeyVal _ (KeyVal_cleanRecord_popularity s1 m),
    imputeField_id_of_KeyVal _ (KeyVal_cleanRecord_runtime s1 m),
    imputeField_id_of_KeyVal _ (KeyVal_cleanRecord_budget s1 m),
    imputeField_id_of_KeyVal _ (KeyVal_cleanRecord_revenue s1 m)]

theorem defaultPhase_cleanRecord (s1 : String → ℚ) (m : Dict) :
    defaultPhase (cleanRecord s1 m) = cleanRecord s1 m := by
  unfold defaultPhase
  rw [asetdefault_of_isSome _
      (aget_cleanRecord_default_isSome s1 m "overview" (by decide)),
    asetdefault_of_isSome _
      (aget_cleanRecord_default_isSome s1 m "tagline" (by decide)),
    asetdefault_of_isSome _
      (aget_cleanRecord_default_isSome s1 m "genres" (by decide)),
    asetdefault_of_isSome _
      (aget_cleanRecord_default_isSome s1 m "production_companies" (by decide)),
    asetdefault_of_isSome _
      (aget_cleanRecord_default_isSome s1 m "spoken_languages" (by decide)),
    asetdefault_of_isSome _
      (aget_cleanRecord_default_isSome s1 m "original_language" (by decide)),
    asetdefault_of_isSome _
      (aget_cleanRecord_default_isSome s1 m "keywords" (by decide))]

/-- Re-cleaning an already-cleaned record (with any second statistics
table) leaves it unchanged: imputation keeps the now never-null numeric
fields, the defaults are present, and the derived fields are recomputed
from unchanged bases. -/
theorem cleanRecord_idem (s2 s1 : String → ℚ) (m : Dict) :
    cleanRecord s2 (cleanRecord s1 m) = cleanRecord s1 m := by
  have h3 : deriveReleaseYear (cleanRecord s1 m) = cleanRecord s1 m := by
    rw [deriveReleaseYear, aget_cleanRecord_release_date s1 m]
    exact aset_of_KeyVal (KeyVal_cleanRecord_release_year s1 m)
  have h4 : deriveProfit (cleanRecord s1 m) = cleanRecord s1 m := by
    rw [deriveProfit, dgetV_cleanRecord_feature s1 m "revenue" (by decide),
      dgetV_cleanRecord_feature s1 m "budget" (by decide)]
    exact aset_of_KeyVal (KeyVal_cleanRecord_profit s1 m)
  have h5 : deriveRoi (cleanRecord s1 m) = cleanRecord s1 m := by
    rw [deriveRoi, dgetV_cleanRecord_feature s1 m "budget" (by decide),
      dgetV_cleanRecord_feature s1 m "revenue" (by decide)]
    exact aset_of_KeyVal (KeyVal_cleanRecord_roi s1 m)
  have h6 : derivePopCategory (cleanRecord s1 m) = cleanRecord s1 m := by
    rw [derivePopCategory, dgetV_cleanRecord_feature s1 m "popularity" (by decide)]
    exact aset_of_KeyVal (KeyVal_cleanRecord_popularity_category s1 m)
  show derivePopCategory (deriveRoi (deriveProfit (deriveReleaseYear
    (defaultPhase (imputePhase s2 (cleanRecord s1 m)))))) = cleanRecord s1 m
  rw [imputePhase_cleanRecord s2 s1 m, defaultPhase_cleanRecord s1 m,
    h3, h4, h5, h6]

theorem clean_transform_data_eq (movies_list : List Dict)
    (h : movies_list ≠ []) :
    clean_transform_data movies_list =
      dedupById (movies_list.map (cleanRecord (calculate_statistics movies_list))) := by
  rw [clean_transform_data, if_neg h]

theorem clean_transform_data_idem (ms : List Dict) :
    clean_transform_data (clean_transform_data ms) = clean_transform_data ms := by
  by_cases hms : ms = []
  · rw [hms]
    rfl
  · rw [clean_transform_data_eq ms hms]
    have hne : dedupById (ms.map (cleanRecord (calculate_statistics ms))) ≠ [] := by
      obtain ⟨m0, rest, hrw⟩ := List.exists_cons_of_ne_nil hms
      rw [hrw, List.map_cons]
      exact dedupById_cons_ne_nil _ _
    rw [clean_transform_data_eq _ hne]
    have hall : ∀ d ∈ dedupById (ms.map (cleanRecord (calculate_statistics ms))),
        cleanRecord (calculate_statistics
          (dedupById (ms.map (cleanRecord (calculate_statistics ms))))) d = d := by
      intro d hd
      obtain ⟨m1, _, rfl⟩ := List.mem_map.1 (mem_of_mem_dedupById hd)
      exact cleanRecord_idem _ _ m1
    rw [List.map_congr_left hall, List.map_id',
      dedupById_eq_self (dedupById_map_idOf_nodup _)]

/-! ## Lemmas about the Listing Extractor -/

/-- First-occurrence deduplication of raw listing results, written as a
direct recursion (the specification the extractor's loop is checked
against): returns the kept movies and the final seen-set. -/
def firstOccSt : List RawMovie → List Val → List RawMovie × List Val
  | [], seen => ([], seen)
  | mv :: rest, seen =>
      if mv.id ∈ seen then firstOccSt rest seen
      else
        (mv :: (firstOccSt rest (mv.id :: seen)).1,
         (firstOccSt rest (mv.id :: seen)).2)

theorem idOf_movieElement (mv : RawMovie) : idOf (movieElement mv) = mv.id := by
  simp [idOf, movieElement]

theorem processPage_spec (l : List RawMovie) (seen : List Val) (acc : List Dict) :
    processPage l (seen, acc) =
      ((firstOccSt l seen).2, acc ++ ((firstOccSt l seen).1).map movieElement) := by
  induction l generalizing seen acc with
  | nil => simp [processPage, firstOccSt]
  | cons mv rest ih =>
    rw [processPage, firstOccSt]
    by_cases hm : mv.id ∈ seen
    · rw [if_pos hm, if_pos hm, ih]
    · rw [if_neg hm, if_neg hm, ih]
      simp

theorem firstOccSt_append (a b : List RawMovie) (seen : List Val) :
    firstOccSt (a ++ b) seen =
      ((firstOccSt a seen).1 ++ (firstOccSt b (firstOccSt a seen).2).1,
       (firstOccSt b (firstOccSt a seen).2).2) := by
  induction a generalizing seen with
  | nil => simp [firstOccSt]
  | cons mv rest ih =>
    rw [List.cons_append, firstOccSt, firstOccSt]
    by_cases hm : mv.id ∈ seen
    · rw [if_pos hm, if_pos hm, ih]
    · rw [if_neg hm, if_neg hm]
      dsimp only
      rw [ih]
      simp

theorem fetchMoviesAux_spec (pages : List (List RawMovie)) (page : ℕ)
    (seen : List Val) (acc : List Dict) :
    fetchMoviesAux (pages.map some) page (seen, acc) =
      Except.ok (acc ++ ((firstOccSt pages.flatten seen).1).map movieElement) := by
  induction pages generalizing page seen acc with
  | nil => simp [fetchMoviesAux, firstOccSt]
  | cons pg rest ih =>
    rw [List.map_cons,
      show fetchMoviesAux (some pg :: rest.map some) page (seen, acc)
        = fetchMoviesAux (rest.map some) (page + 1) (processPage pg (seen, acc))
        from rfl,
      processPage_spec, ih, List.flatten_cons, firstOccSt_append]
    dsimp only
    rw [List.map_append, List.append_assoc]

theorem fetch_movies_spec (pages : List (List RawMovie)) :
    fetch_movies (pages.map some) =
      Except.ok (((firstOccSt pages.flatten []).1).map movieElement) := by
  rw [fetch_movies, fetchMoviesAux_spec]
  rw [List.nil_append]

theorem firstOccSt_nodup (l : List RawMovie) (seen : List Val) :
    ((firstOccSt l seen).1.map (·.id)).Nodup ∧
      ∀ mv ∈ (firstOccSt l seen).1, mv.id ∉ seen := by
  induction l generalizing seen with
  | nil => simp [firstOccSt]
  | cons mv rest ih =>
    rw [firstOccSt]
    by_cases hm : mv.id ∈ seen
    · rw [if_pos hm]
      exact ih seen
    · rw [if_neg hm]
      dsimp only
      obtain ⟨h1, h2⟩ := ih (mv.id :: seen)
      refine ⟨?_, ?_⟩
      · rw [List.map_cons, List.nodup_cons]
        refine ⟨?_, h1⟩
        intro hc
        obtain ⟨mv', hmv', hid⟩ := List.mem_map.1 hc
        exact h2 mv' hmv' (by rw [hid]; exact List.mem_cons_self _ _)
      · intro mv' hmv'
        rcases List.mem_cons.1 hmv' with h3 | h3
        · rw [h3]
          exact hm
        · exact fun hc => h2 mv' h3 (List.mem_cons_of_mem _ hc)

theorem mem_firstOccSt_id (l : List RawMovie) (seen : List Val) (v : Val) :
    v ∈ (firstOccSt l seen).1.map (·.id) ↔ v ∈ l.map (·.id) ∧ v ∉ seen := by
  induction l generalizing seen with
  | nil => simp [firstOccSt]
  | cons mv rest ih =>
    rw [firstOccSt]
    by_cases hm : mv.id ∈ seen
    · rw [if_pos hm, ih, List.map_cons]
      constructor
      · rintro ⟨h1, h2⟩
        exact ⟨List.mem_cons_of_mem _ h1, h2⟩
      · rintro ⟨h1, h2⟩
        rcases List.mem_cons.1 h1 with h3 | h3
        · exact absurd (show v ∈ seen from by rw [h3]; exact hm) h2
        · exact ⟨h3, h2⟩
    · rw [if_neg hm]
      dsimp only
      rw [List.map_cons, List.map_cons]
      constructor
      · intro h
        rcases List.mem_cons.1 h with h1 | h1
        · exact ⟨by rw [h1]; exact List.mem_cons_self _ _, by rw [h1]; exact hm⟩
        · obtain ⟨h2, h3⟩ := (ih _).1 h1
          exact ⟨List.mem_cons_of_mem _ h2,
            fun hc => h3 (List.mem_cons_of_mem _ hc)⟩
      · rintro ⟨h1, h2⟩
        rcases List.mem_cons.1 h1 with h3 | h3
        · rw [h3]
          exact List.mem_cons_self _ _
        · by_cases hv : v = mv.id
          · rw [hv]
            exact List.mem_cons_self _ _
          · refine List.mem_cons_of_mem _ ((ih _).2 ⟨h3, ?_⟩)
            intro hc
            rcases List.mem_cons.1 hc with h4 | h4
            · exact hv h4
            · exact h2 h4

/-! ## Lemmas about the statistics engine -/

theorem collectValues_eq_filterMap (ms : List Dict) (f : String) :
    collectValues ms f = ms.filterMap (fun movie =>
      match aget movie f with
      | some (Val.num q) => some q
      | _ => none) := by
  suffices h : ∀ acc : List ℚ, ms.foldl (fun acc movie =>
      match aget movie f with
      | some (Val.num q) => acc ++ [q]
      | _ => acc) acc
      = acc ++ ms.filterMap (fun movie =>
          match aget movie f with
          | some (Val.num q) => some q
          | _ => none) by
    simpa [collectValues] using h []
  intro acc
  induction ms generalizing acc with
  | nil => simp
  | cons m rest ih =>
    rw [List.foldl_cons, List.filterMap_cons]
    cases hv : aget m f with
    | none => simp [hv, ih]
    | some v =>
      cases v with
      | num q => simp [hv, ih]
      | str s => simp [hv, ih]
      | inf => simp [hv, ih]
      | null => simp [hv, ih]

/-- The "present and non-null" values of a field across the record set, as
the spec describes them. -/
def nonNullValues (ms : List Dict) (f : String) : List Val :=
  ms.filterMap (fun movie =>
    match aget movie f with
    | some v => if v = Val.null then none else some v
    | none => none)

/-- On numerically well-typed data, the collection loop gathers exactly the
present non-null values of the field. -/
theorem collectValues_wf (ms : List Dict) (f : String)
    (hwf : ∀ m ∈ ms, ∀ v, aget m f = some v → v ≠ Val.null → ∃ q, v = Val.num q) :
    (collectValues ms f).map Val.num = nonNullValues ms f := by
  rw [collectValues_eq_filterMap, nonNullValues]
  induction ms with
  | nil => simp
  | cons m rest ih =>
    have hm := hwf m (List.mem_cons_self m rest)
    have ih' := ih (fun m' hm' => hwf m' (List.mem_cons_of_mem m hm'))
    rw [List.filterMap_cons, List.filterMap_cons]
    cases hv : aget m f with
    | none => simpa [hv] using ih'
    | some v =>
      cases v with
      | num q => simpa [hv] using ih'
      | str s =>
        obtain ⟨q, hq⟩ := hm (Val.str s) hv (by simp)
        exact absurd hq (by simp)
      | inf =>
        obtain ⟨q, hq⟩ := hm Val.inf hv (by simp)
        exact absurd hq (by simp)
      | null => simpa [hv] using ih'

theorem enrich_map_idOf (api : Val → Option ApiDetail) (ms : List Dict)
    (md : Option ℤ) :
    (enrich_movie_data_parallel api ms md).map idOf
      = (moviesToProcess (dedupById ms) md).map idOf := by
  rw [enrich_eq_map, List.map_map]
  apply List.map_congr_left
  intro movie _
  show idOf (amerge movie (apop (fetch_movie_details api (idOf movie)) "movie_id"))
    = idOf movie
  unfold idOf
  rw [aget_amerge_of_no_key]
  intro p hp
  exact mem_apop_key_ne hp

theorem enrich_length (api : Val → Option ApiDetail) (ms : List Dict)
    (md : Option ℤ) :
    (enrich_movie_data_parallel api ms md).length
      = (moviesToProcess (dedupById ms) md).length := by
  have h := congrArg List.length (enrich_map_idOf api ms md)
  simpa using h

/-! ## C1 -/

/-- Listing and detail used for the C1 counterexample: the listing already
carries a `budget` field, and the detail response reports a different
budget. -/
def movieC1 : Dict := [("movie_id", Val.num 1), ("budget", Val.num 5)]

def apiC1 : Val → Option ApiDetail := fun v =>
  if v = Val.num 1 then some { budget := some (Val.num 7) } else none

/-- C1, counterexample: the claim says the listing's value takes precedence
on a key defined by both records, but `{**movie, **details}` lets the
detail's value win: with listing budget 5 and detail budget 7 the enriched
record carries 7, not 5. -/
theorem claim_C1_counterexample :
    aget ((enrich_movie_data_parallel apiC1 [movieC1] none).headD []) "budget"
        = some (Val.num 7)
      ∧ aget movieC1 "budget" = some (Val.num 5)
      ∧ Val.num 7 ≠ Val.num 5 := by
  refine ⟨by decide, by decide, by decide⟩

/-- C1, amended: the merge returns the union of the two field sets in which,
on any key defined by both (other than the identifier, which is removed from
the detail's copy before merging), the *detail's* value takes precedence
over the listing's value. -/
theorem claim_C1_amended :
    (∀ (api : Val → Option ApiDetail) (movies_list : List Dict)
        (max_details : Option ℤ),
      enrich_movie_data_parallel api movies_list max_details =
        (moviesToProcess (dedupById movies_list) max_details).map
          (fun movie =>
            amerge movie (apop (fetch_movie_details api (idOf movie)) "movie_id")))
    ∧ (∀ (movie detail : Dict) (k : String), (detail.map Prod.fst).Nodup →
        aget (amerge movie (apop detail "movie_id")) k =
          if k = "movie_id" then aget movie k
          else
            match aget detail k with
            | some v => some v
            | none => aget movie k)
    ∧ (∀ (api : Val → Option ApiDetail) (v : Val),
        ((fetch_movie_details api v).map Prod.fst).Nodup) := by
  refine ⟨enrich_eq_map, ?_, fetch_movie_details_keys_nodup⟩
  intro movie detail k hnd
  have hpopnd : ((apop detail "movie_id").map Prod.fst).Nodup :=
    hnd.sublist ((List.filter_sublist _).map Prod.fst)
  rw [aget_amerge _ _ _ hpopnd]
  by_cases hk : k = "movie_id"
  · subst hk
    rw [if_pos rfl, aget_apop_self]
  · rw [if_neg hk, aget_apop_ne _ _ _ hk]
    cases aget detail k <;> rfl

def detailC1W : Dict := [("movie_id", Val.num 1), ("budget", Val.num 7)]

/-- C1, witness for the amended merge characterisation at a concrete
listing/detail pair. -/
theorem claim_C1_amended_witness :
    aget (amerge movieC1 (apop detailC1W "movie_id")) "budget" =
      if "budget" = "movie_id" then aget movieC1 "budget"
      else
        match aget detailC1W "budget" with
        | some v => some v
        | none => aget movieC1 "budget" :=
  claim_C1_amended.2.1 movieC1 detailC1W "budget" (by decide)

/-! ## C2 -/

def msC2 : List Dict := [[("movie_id", Val.num 1)]]

def apiC2 : Val → Option ApiDetail := fun _ => none

/-- C2, counterexample: with `maxDetails` set to 0 the claim demands output
length `min 0 1 = 0`, but `0` is falsy in Python so the truncation is
skipped and the single record is returned. -/
theorem claim_C2_counterexample :
    (enrich_movie_data_parallel apiC2 msC2 (some 0)).length
      ≠ min 0 ((msC2.map idOf).dedup.length) := by
  decide

/-- C2, amended: enrichment first keeps only the first occurrence of each
identifier; the output has length `min(maxDetails, distinct-identifier
count)` whenever `maxDetails` is set to a *positive* value, and length equal
to the distinct-identifier count when it is unset *or set to 0* (0 is falsy
in Python, so it disables the truncation); the output order matches the
input order of first occurrences, and the output has exactly one record per
unique identifier. -/
theorem claim_C2_amended (api : Val → Option ApiDetail) (ms : List Dict) :
    (∀ n : ℕ, 0 < n →
      (enrich_movie_data_parallel api ms (some ((n : ℕ) : ℤ))).length
        = min n ((ms.map idOf).dedup.length))
    ∧ (enrich_movie_data_parallel api ms (some 0)).length
        = ((ms.map idOf).dedup).length
    ∧ (enrich_movie_data_parallel api ms none).length
        = ((ms.map idOf).dedup).length
    ∧ (∀ n : ℕ, 0 < n →
      (enrich_movie_data_parallel api ms (some ((n : ℕ) : ℤ))).map idOf
        = (((dedupById ms).map idOf).take n))
    ∧ (enrich_movie_data_parallel api ms none).map idOf
        = (dedupById ms).map idOf
    ∧ (∀ max_details : Option ℤ,
        ((enrich_movie_data_parallel api ms max_details).map idOf).Nodup)
    ∧ (∀ v : Val, v ∈ (dedupById ms).map idOf ↔ v ∈ ms.map idOf)
    ∧ (∀ d ∈ dedupById ms, d ∈ ms) := by
  refine ⟨?_, ?_, ?_, ?_, ?_, ?_, mem_map_idOf_dedupById ms,
    fun d hd => mem_of_mem_dedupById hd⟩
  · intro n hn
    rw [enrich_length, moviesToProcess_pos _ n hn, List.length_take,
      dedupById_length]
  · rw [enrich_length, moviesToProcess_zero, dedupById_length]
  · rw [enrich_length, moviesToProcess_none, dedupById_length]
  · intro n hn
    rw [enrich_map_idOf, moviesToProcess_pos _ n hn, List.map_take]
  · rw [enrich_map_idOf, moviesToProcess_none]
  · intro md
    rw [enrich_map_idOf]
    exact (dedupById_map_idOf_nodup ms).sublist
      ((moviesToProcess_sublist (dedupById ms) md).map idOf)

/-- C2, witness for the amended length formula at a concrete input. -/
theorem claim_C2_amended_witness :
    (enrich_movie_data_parallel apiC2 msC2 (some ((1 : ℕ) : ℤ))).length
      = min 1 ((msC2.map idOf).dedup.length) :=
  (claim_C2_amended apiC2 msC2).1 1 (by decide)

/-! ## C6 -/

/-- C6: a failed detail fetch is absorbed: the fetcher returns the
identifier-only stub, and the corresponding listing appears in the
enrichment output completely unchanged. -/
theorem claim_C6 (api : Val → Option ApiDetail) :
    (∀ mid : Val, api mid = none →
      fetch_movie_details api mid = [("movie_id", mid)])
    ∧ (∀ (ms : List Dict) (md : Option ℤ) (i : ℕ) (movie : Dict),
        (moviesToProcess (dedupById ms) md)[i]? = some movie →
        api (idOf movie) = none →
        (enrich_movie_data_parallel api ms md)[i]? = some movie) := by
  refine ⟨fun mid h => fetch_movie_details_keys_none h, ?_⟩
  intro ms md i movie hget hapi
  rw [enrich_eq_map, List.getElem?_map, hget]
  simp [fetch_movie_details_keys_none hapi, apop]

def apiC6 : Val → Option ApiDetail := fun _ => none

def movieC6 : Dict := [("movie_id", Val.num 3), ("title", Val.str "T")]

/-- C6, witness at a concrete failing fetch. -/
theorem claim_C6_witness :
    (enrich_movie_data_parallel apiC6 [movieC6] none)[0]? = some movieC6 :=
  (claim_C6 apiC6).2 [movieC6] none 0 movieC6 (by decide) rfl

/-! ## C3 -/

/-- C3: the imputation step never overwrites a present non-null numeric
value (including 0 and negative numbers); only a missing or null value is
replaced by the field's statistic. -/
theorem claim_C3 :
    (∀ ms : List Dict, ms ≠ [] →
      clean_transform_data ms
        = dedupById (ms.map (cleanRecord (calculate_statistics ms))))
    ∧ (∀ (stats : String → ℚ) (m : Dict) (f : String) (v : Val),
        f ∈ numerical_features → aget m f = some v → v ≠ Val.null →
        aget (cleanRecord stats m) f = some v)
    ∧ (∀ (stats : String → ℚ) (m : Dict) (f : String),
        f ∈ numerical_features →
        (aget m f = none ∨ aget m f = some Val.null) →
        aget (cleanRecord stats m) f = some (Val.num (stats f))) := by
  refine ⟨clean_transform_data_eq, ?_, ?_⟩
  · intro stats m f v hf hv hnn
    rw [aget_cleanRecord_feature stats m f hf, hv]
    simp [imputedVal, hnn]
  · intro stats m f hf hor
    rw [aget_cleanRecord_feature stats m f hf]
    rcases hor with h | h <;> simp [h, imputedVal]

def movieC3 : Dict := [("movie_id", Val.num 1), ("budget", Val.num 0)]

/-- C3, witness: a present `budget = 0` survives cleaning even though the
statistic is 5. -/
theorem claim_C3_witness :
    aget (cleanRecord (fun _ => 5) movieC3) "budget" = some (Val.num 0) :=
  claim_C3.2.1 (fun _ => 5) movieC3 "budget" (Val.num 0) (by decide) (by decide)
    (by decide)

/-! ## C4 -/

/-- C4: `calculate_statistics` collects the present non-null values of each
numeric field, uses the median for budget/revenue/vote_count and the mean
for the rest, and falls back to 0 on an empty value set; the median of an
even-length set averages the two middle values. -/
theorem claim_C4 :
    (∀ (ms : List Dict) (f : String),
      collectValues ms f = ms.filterMap (fun movie =>
        match aget movie f with
        | some (Val.num q) => some q
        | _ => none))
    ∧ (∀ (ms : List Dict) (f : String),
        (∀ m ∈ ms, ∀ v, aget m f = some v → v ≠ Val.null →
          ∃ q, v = Val.num q) →
        (collectValues ms f).map Val.num = nonNullValues ms f)
    ∧ (∀ (ms : List Dict) (f : String), f ∈ median_features →
        collectValues ms f ≠ [] →
        calculate_statistics ms f = median (collectValues ms f))
    ∧ (∀ (ms : List Dict) (f : String), f ∈ numerical_features →
        f ∉ median_features → collectValues ms f ≠ [] →
        calculate_statistics ms f = mean (collectValues ms f))
    ∧ (∀ (ms : List Dict) (f : String), collectValues ms f = [] →
        calculate_statistics ms f = 0)
    ∧ median [1, 2, 3, 4] = 5 / 2
    ∧ mean [1, 2, 3] = 2 := by
  refine ⟨collectValues_eq_filterMap, collectValues_wf, ?_, ?_, ?_, ?_, ?_⟩
  · intro ms f hf hne
    simp [calculate_statistics, hne, hf]
  · intro ms f _ hf' hne
    simp [calculate_statistics, hne, hf']
  · intro ms f h
    simp [calculate_statistics, h]
  · norm_num [median, pySorted, insertSorted]
  · norm_num [mean]

def msC4 : List Dict :=
  [[("budget", Val.num 1)], [("budget", Val.num 2)],
   [("budget", Val.num 3)], [("budget", Val.num 4)]]

/-- C4, witness: the budget statistic over four records is the median of
the collected values. -/
theorem claim_C4_witness :
    calculate_statistics msC4 "budget" = median (collectValues msC4 "budget") :=
  claim_C4.2.2.1 msC4 "budget" (by decide) (by decide)

/-! ## C5 -/

/-- C5: after imputation, `roi` is `(revenue - budget) / budget` for a
positive budget, 0 for a non-positive budget with zero revenue, and
positive infinity for a non-positive budget with any non-zero revenue
(regardless of the revenue's sign). -/
theorem claim_C5 (stats : String → ℚ) (m : Dict) (b r : ℚ)
    (hb : aget (cleanRecord stats m) "budget" = some (Val.num b))
    (hr : aget (cleanRecord stats m) "revenue" = some (Val.num r)) :
    aget (cleanRecord stats m) "roi" =
      some (if 0 < b then Val.num ((r - b) / b)
        else if r = 0 then Val.num 0 else Val.inf) := by
  rw [(KeyVal_cleanRecord_budget stats m).aget] at hb
  rw [(KeyVal_cleanRecord_revenue stats m).aget] at hr
  have hb2 : imputedVal (aget m "budget") (stats "budget") = Val.num b :=
    Option.some.inj hb
  have hr2 : imputedVal (aget m "revenue") (stats "revenue") = Val.num r :=
    Option.some.inj hr
  rw [(KeyVal_cleanRecord_roi stats m).aget, hb2, hr2, roiVal]
  by_cases h0 : 0 < b
  · simp [valGtZero, h0, valSub, valDiv]
  · by_cases hr0 : r = 0 <;> simp [valGtZero, h0, hr0, valSub, valDiv]

def movieC5 : Dict :=
  [("movie_id", Val.num 1), ("budget", Val.num 100), ("revenue", Val.num 150)]

/-- C5, witness: budget 100, revenue 150. -/
theorem claim_C5_witness :
    aget (cleanRecord (fun _ => 0) movieC5) "roi" =
      some (if (0 : ℚ) < 100 then Val.num (((150 : ℚ) - 100) / 100)
        else if (150 : ℚ) = 0 then Val.num 0 else Val.inf) :=
  claim_C5 (fun _ => 0) movieC5 100 150 (by decide) (by decide)

/-! ## C7 -/

/-- C7: over any sequence of listing pages (with repeats within or across
pages), the extractor emits exactly the first-occurrence records, built by
`movieElement`, one per unique identifier, never overwritten by later
occurrences. -/
theorem claim_C7 (pages : List (List RawMovie)) :
    fetch_movies (pages.map some)
        = Except.ok (((firstOccSt pages.flatten []).1).map movieElement)
      ∧ ((((firstOccSt pages.flatten []).1).map movieElement).map idOf).Nodup
      ∧ (∀ v : Val, v ∈ ((firstOccSt pages.flatten []).1).map (·.id)
          ↔ v ∈ (pages.flatten).map (·.id)) := by
  refine ⟨fetch_movies_spec pages, ?_, ?_⟩
  · have h : (((firstOccSt pages.flatten []).1).map movieElement).map idOf
        = ((firstOccSt pages.flatten []).1).map (·.id) := by
      rw [List.map_map]
      apply List.map_congr_left
      intro mv _
      exact idOf_movieElement mv
    rw [h]
    exact (firstOccSt_nodup pages.flatten []).1
  · intro v
    rw [mem_firstOccSt_id]
    simp

/-! ## C8 -/

/-- C8: `release_year` comes from parsing `release_date` as `YYYY-MM-DD`;
a successful parse yields the year, while an empty value, an absent key, or
any parse failure yields null with no exception. -/
theorem claim_C8 (stats : String → ℚ) (m : Dict) :
    (∀ (rd : String) (y mo dy : ℕ),
      aget m "release_date" = some (Val.str rd) →
      strptimeYMD rd = some (y, mo, dy) →
      aget (cleanRecord stats m) "release_year" = some (Val.num (y : ℚ)))
    ∧ (∀ rd : String, aget m "release_date" = some (Val.str rd) →
        strptimeYMD rd = none →
        aget (cleanRecord stats m) "release_year" = some Val.null)
    ∧ (aget m "release_date" = none →
        aget (cleanRecord stats m) "release_year" = some Val.null)
    ∧ strptimeYMD "2020-05-01" = some (2020, 5, 1)
    ∧ strptimeYMD "" = none
    ∧ strptimeYMD "2020-13-01" = none
    ∧ strptimeYMD "2020-02-30" = none := by
  have hry := (KeyVal_cleanRecord_release_year stats m).aget
  refine ⟨?_, ?_, ?_, by decide, by decide, by decide, by decide⟩
  · intro rd y mo dy hrd hparse
    have hne : rd ≠ "" := by
      intro hrfl
      rw [hrfl, show strptimeYMD "" = none from rfl] at hparse
      exact Option.noConfusion hparse
    rw [hry, hrd]
    simp [releaseYearVal, hne, hparse]
  · intro rd hrd hparse
    rw [hry, hrd]
    by_cases hrd0 : rd = ""
    · simp [releaseYearVal, hrd0]
    · simp [releaseYearVal, hrd0, hparse]
  · intro h
    rw [hry, h]
    rfl

def movieC8 : Dict :=
  [("movie_id", Val.num 1), ("release_date", Val.str "2020-05-01")]

/-- C8, witness: a record dated 2020-05-01 gets release_year 2020. -/
theorem claim_C8_witness :
    aget (cleanRecord (fun _ => 0) movieC8) "release_year"
      = some (Val.num ((2020 : ℕ) : ℚ)) :=
  (claim_C8 (fun _ => 0) movieC8).1 "2020-05-01" 2020 5 1 (by decide) (by decide)

/-! ## C9 -/

/-- C9: the cleaning transform is idempotent — re-cleaning its own output
reproduces it exactly: imputation finds no nulls left, string defaults are
present, and the derived fields are recomputed from unchanged inputs. -/
theorem claim_C9 (ms : List Dict) :
    clean_transform_data (clean_transform_data ms) = clean_transform_data ms :=
  clean_transform_data_idem ms

/-! ## C10 -/

theorem string_append_left_cancel {a b c : String} (h : a ++ b = a ++ c) :
    b = c := by
  have hd := congrArg String.data h
  rw [String.data_append, String.data_append] at hd
  exact String.ext (List.append_cancel_left hd)

/-- C10: the success payload reports `s3://<bucket>/<S3_FILE_NAME>` (with
the default file name `movies_data_enriched.csv`), while the object is
written under the dated key `daily_outputs/movies_data_<date>.csv`; the
written object's URI never equals the reported destination, whatever the
bucket and run date. -/
theorem claim_C10 (bucket date_suffix : String) :
    s3Uri bucket S3_FILE_NAME_default
        = "s3://" ++ bucket ++ "/movies_data_enriched.csv"
      ∧ uploadFileKey date_suffix
        = "daily_outputs/movies_data_" ++ date_suffix ++ ".csv"
      ∧ s3Uri bucket (uploadFileKey date_suffix)
        ≠ s3Uri bucket S3_FILE_NAME_default := by
  refine ⟨?_, rfl, ?_⟩
  · rw [s3Uri, S3_FILE_NAME_default, String.append_assoc]
    rfl
  · intro h
    rw [s3Uri, s3Uri] at h
    have hk : uploadFileKey date_suffix = S3_FILE_NAME_default :=
      string_append_left_cancel h
    have hdata := congrArg String.data hk
    rw [uploadFileKey, S3_FILE_NAME_default, String.data_append,
      String.data_append,
      show ("daily_outputs/movies_data_" : String).data
        = 'd' :: "aily_outputs/movies_data_".data from rfl,
      show ("movies_data_enriched.csv" : String).data
        = 'm' :: "ovies_data_enriched.csv".data from rfl,
      List.cons_append, List.cons_append] at hdata
    injection hdata with h1 _
    exact absurd h1 (by decide)
